import Mathlib

/-!
Shallow embedding of the wacli persistent store and ingestion layer
(internal/store and internal/app), with theorems checking the
natural-language specification against the code.

Tables are lists of rows; SQL upserts become pure functions on those
lists; `time.Time` values appear as their `unix` integer seconds; Go
`[]byte` appears as `List Nat`; SQL NULL appears as `Option`.
-/

namespace Wacli

/-- Go `[]byte` columns (BLOBs). -/
abbrev Bytes := List Nat

/-- Go strings.TrimSpace: drop leading and trailing whitespace. Written
over the character list so it computes by kernel reduction. -/
def trimSpace (s : String) : String :=
  String.mk (((s.data.dropWhile Char.isWhitespace).reverse.dropWhile Char.isWhitespace).reverse)

/-- store.nullIfEmpty: trim whitespace; empty becomes SQL NULL, otherwise
the trimmed string is bound. -/
def nullIfEmpty (s : String) : Option String :=
  let t := trimSpace s
  if t = "" then none else some t

/-- Go `int64(u)` for a `uint64` value: two's-complement reinterpretation. -/
def int64OfUInt64 (n : Nat) : Int :=
  let m : Nat := n % 2 ^ 64
  if m < 2 ^ 63 then (m : Int) else (m : Int) - 2 ^ 64

/-- One row of the `messages` table (migrations.go core schema plus the
`display_text` and reaction columns added by migrations 2 and 4). -/
structure MsgRow where
  chat_jid : String
  chat_name : Option String
  msg_id : String
  sender_jid : Option String
  sender_name : Option String
  ts : Int
  from_me : Bool
  text : Option String
  display_text : Option String
  media_type : Option String
  media_caption : Option String
  filename : Option String
  mime_type : Option String
  direct_path : Option String
  media_key : Bytes
  file_sha256 : Bytes
  file_enc_sha256 : Bytes
  file_length : Int
  local_path : Option String
  downloaded_at : Option Int
  reaction_to_id : Option String
  reaction_emoji : Option String
  deriving Repr, DecidableEq

/-- The `messages` table. -/
abbrev MsgTable := List MsgRow

/-- store.UpsertMessageParams (internal/store/messages.go). `Timestamp`
is already the `unix` value of the Go `time.Time`; `FileLength` is the
Go `uint64`. -/
structure UpsertMessageParams where
  ChatJID : String
  ChatName : String
  MsgID : String
  SenderJID : String
  SenderName : String
  Timestamp : Int
  FromMe : Bool
  Text : String
  DisplayText : String
  MediaType : String
  MediaCaption : String
  Filename : String
  MimeType : String
  DirectPath : String
  MediaKey : Bytes
  FileSHA256 : Bytes
  FileEncSHA256 : Bytes
  FileLength : Nat
  ReactionToID : String
  ReactionEmoji : String
  deriving Repr, DecidableEq

/-- Whether a row is hit by the `ON CONFLICT(chat_jid, msg_id)` key. -/
def msgKeyMatches (chat id : String) (r : MsgRow) : Bool :=
  r.chat_jid = chat && r.msg_id = id

/-- COALESCE(NULLIF(excluded.x,''), messages.x) on an already
null-normalized bound value: prefer the incoming value when present. -/
def preferIncoming (incoming old : Option String) : Option String :=
  match incoming with
  | some s => some s
  | none => old

/-- CASE WHEN incoming IS NOT NULL AND length(incoming)>0 THEN incoming
ELSE old END for BLOB columns. -/
def preferNonEmptyBytes (incoming old : Bytes) : Bytes :=
  if incoming = [] then old else incoming

/-- The VALUES row of the INSERT in UpsertMessage: every string argument
is bound through nullIfEmpty; `local_path`/`downloaded_at` are not in
the column list and default to NULL. -/
def insertRowOfParams (p : UpsertMessageParams) : MsgRow where
  chat_jid := p.ChatJID
  chat_name := nullIfEmpty p.ChatName
  msg_id := p.MsgID
  sender_jid := nullIfEmpty p.SenderJID
  sender_name := nullIfEmpty p.SenderName
  ts := p.Timestamp
  from_me := p.FromMe
  text := nullIfEmpty p.Text
  display_text := nullIfEmpty p.DisplayText
  media_type := nullIfEmpty p.MediaType
  media_caption := nullIfEmpty p.MediaCaption
  filename := nullIfEmpty p.Filename
  mime_type := nullIfEmpty p.MimeType
  direct_path := nullIfEmpty p.DirectPath
  media_key := p.MediaKey
  file_sha256 := p.FileSHA256
  file_enc_sha256 := p.FileEncSHA256
  file_length := int64OfUInt64 p.FileLength
  local_path := none
  downloaded_at := none
  reaction_to_id := nullIfEmpty p.ReactionToID
  reaction_emoji := nullIfEmpty p.ReactionEmoji

/-- The DO UPDATE SET clause of UpsertMessage
(internal/store/messages.go lines 40-58), applied to the existing row
with the null-normalized bound values. -/
def mergeRow (old : MsgRow) (p : UpsertMessageParams) : MsgRow where
  chat_jid := old.chat_jid
  chat_name := preferIncoming (nullIfEmpty p.ChatName) old.chat_name
  msg_id := old.msg_id
  sender_jid := nullIfEmpty p.SenderJID
  sender_name := preferIncoming (nullIfEmpty p.SenderName) old.sender_name
  ts := p.Timestamp
  from_me := p.FromMe
  text := nullIfEmpty p.Text
  display_text := preferIncoming (nullIfEmpty p.DisplayText) old.display_text
  media_type := nullIfEmpty p.MediaType
  media_caption := nullIfEmpty p.MediaCaption
  filename := preferIncoming (nullIfEmpty p.Filename) old.filename
  mime_type := preferIncoming (nullIfEmpty p.MimeType) old.mime_type
  direct_path := preferIncoming (nullIfEmpty p.DirectPath) old.direct_path
  media_key := preferNonEmptyBytes p.MediaKey old.media_key
  file_sha256 := preferNonEmptyBytes p.FileSHA256 old.file_sha256
  file_enc_sha256 := preferNonEmptyBytes p.FileEncSHA256 old.file_enc_sha256
  file_length := if int64OfUInt64 p.FileLength > 0 then int64OfUInt64 p.FileLength else old.file_length
  local_path := old.local_path
  downloaded_at := old.downloaded_at
  reaction_to_id := preferIncoming (nullIfEmpty p.ReactionToID) old.reaction_to_id
  reaction_emoji := preferIncoming (nullIfEmpty p.ReactionEmoji) old.reaction_emoji

/-- store.UpsertMessage: INSERT ... ON CONFLICT(chat_jid, msg_id) DO
UPDATE, as a function on the messages table. -/
def UpsertMessage (p : UpsertMessageParams) (t : MsgTable) : MsgTable :=
  if t.any (msgKeyMatches p.ChatJID p.MsgID) then
    t.map fun r => if msgKeyMatches p.ChatJID p.MsgID r then mergeRow r p else r
  else
    t ++ [insertRowOfParams p]

/-- One row of the `chats` table. -/
structure ChatRow where
  jid : String
  kind : String
  name : Option String
  last_message_ts : Option Int
  deriving Repr, DecidableEq

/-- The `chats` table. -/
abbrev ChatTable := List ChatRow

/-- The DO UPDATE SET clause of UpsertChat. -/
def mergeChatRow (old : ChatRow) (kind : String) (name : String) (ts : Int) : ChatRow where
  jid := old.jid
  kind := kind
  name := if name ≠ "" then some name else old.name
  last_message_ts :=
    if ts > (old.last_message_ts.getD 0) then some ts else old.last_message_ts

/-- store.UpsertChat (unnamed/part_000 lines 277-290): the name is bound
raw (no nullIfEmpty), a blank kind becomes "unknown", and `ts` is the
`unix` value of the Go time. -/
def UpsertChat (jid kind name : String) (ts : Int) (t : ChatTable) : ChatTable :=
  let kind := if trimSpace kind = "" then "unknown" else kind
  if t.any (fun c => c.jid = jid) then
    t.map fun c => if c.jid = jid then mergeChatRow c kind name ts else c
  else
    t ++ [{ jid := jid, kind := kind, name := some name, last_message_ts := some ts }]

/-- Replaces a whitespace-only string by the empty string. -/
def blankToEmpty (s : String) : String := if trimSpace s = "" then "" else s

/-- UpsertMessageParams with every nullIfEmpty-bound string field pushed
through blankToEmpty (the key fields ChatJID/MsgID are bound raw in the
source and are left untouched). -/
def normalizeBlankParams (p : UpsertMessageParams) : UpsertMessageParams :=
  { p with
    ChatName := blankToEmpty p.ChatName
    SenderJID := blankToEmpty p.SenderJID
    SenderName := blankToEmpty p.SenderName
    Text := blankToEmpty p.Text
    DisplayText := blankToEmpty p.DisplayText
    MediaType := blankToEmpty p.MediaType
    MediaCaption := blankToEmpty p.MediaCaption
    Filename := blankToEmpty p.Filename
    MimeType := blankToEmpty p.MimeType
    DirectPath := blankToEmpty p.DirectPath
    ReactionToID := blankToEmpty p.ReactionToID
    ReactionEmoji := blankToEmpty p.ReactionEmoji }

theorem nullIfEmpty_blankToEmpty (s : String) :
    nullIfEmpty (blankToEmpty s) = nullIfEmpty s := by
  have h0 : trimSpace "" = "" := rfl
  unfold blankToEmpty nullIfEmpty
  by_cases h : trimSpace s = "" <;> simp [h, h0]

theorem preferIncoming_idem (x y : Option String) :
    preferIncoming x (preferIncoming x y) = preferIncoming x y := by
  cases x <;> simp [preferIncoming]

theorem preferNonEmptyBytes_idem (x y : Bytes) :
    preferNonEmptyBytes x (preferNonEmptyBytes x y) = preferNonEmptyBytes x y := by
  by_cases h : x = [] <;> simp [preferNonEmptyBytes, h]

theorem mergeRow_key (c i : String) (r : MsgRow) (p : UpsertMessageParams) :
    msgKeyMatches c i (mergeRow r p) = msgKeyMatches c i r := by
  simp [msgKeyMatches, mergeRow]

theorem mergeRow_mergeRow (r : MsgRow) (p : UpsertMessageParams) :
    mergeRow (mergeRow r p) p = mergeRow r p := by
  simp only [mergeRow, preferIncoming_idem, preferNonEmptyBytes_idem]
  by_cases h : int64OfUInt64 p.FileLength > 0 <;> simp [h]

theorem mergeRow_insertRow (p : UpsertMessageParams) :
    mergeRow (insertRowOfParams p) p = insertRowOfParams p := by
  have hpref : ∀ x : Option String, preferIncoming x x = x := by
    intro x; cases x <;> simp [preferIncoming]
  have hbytes : ∀ x : Bytes, preferNonEmptyBytes x x = x := by
    intro x; by_cases h : x = [] <;> simp [preferNonEmptyBytes, h]
  simp only [mergeRow, insertRowOfParams, hpref, hbytes]
  by_cases h : int64OfUInt64 p.FileLength > 0 <;> simp [h]

theorem insertRow_key (p : UpsertMessageParams) :
    msgKeyMatches p.ChatJID p.MsgID (insertRowOfParams p) = true := by
  simp [msgKeyMatches, insertRowOfParams]

/-- Re-applying the same UpsertMessage parameters is a no-op on the table. -/
theorem upsertMessage_idem (p : UpsertMessageParams) (t : MsgTable) :
    UpsertMessage p (UpsertMessage p t) = UpsertMessage p t := by
  by_cases hk : t.any (msgKeyMatches p.ChatJID p.MsgID) = true
  · have hany : (t.map fun r =>
        if msgKeyMatches p.ChatJID p.MsgID r then mergeRow r p else r).any
          (msgKeyMatches p.ChatJID p.MsgID) = true := by
      rw [List.any_map]
      rcases List.any_eq_true.mp hk with ⟨r, hr, hkey⟩
      exact List.any_eq_true.mpr ⟨r, hr, by simp [Function.comp, hkey, mergeRow_key]⟩
    simp only [UpsertMessage, hk, if_true, hany, List.map_map]
    apply List.map_congr_left
    intro r _
    by_cases hkey : msgKeyMatches p.ChatJID p.MsgID r = true
    · simp [Function.comp, hkey, mergeRow_key, mergeRow_mergeRow]
    · simp [Function.comp, hkey]
  · have hkf : t.any (msgKeyMatches p.ChatJID p.MsgID) = false := by
      simpa using hk
    have hnone : ∀ r ∈ t, msgKeyMatches p.ChatJID p.MsgID r = false := by
      intro r hr
      by_contra hne
      exact hk (List.any_eq_true.mpr ⟨r, hr, by simpa using hne⟩)
    have hany : (t ++ [insertRowOfParams p]).any (msgKeyMatches p.ChatJID p.MsgID) = true := by
      simp [List.any_append, insertRow_key]
    simp only [UpsertMessage, hkf, Bool.false_eq_true, if_false, hany, if_true]
    rw [List.map_append]
    congr 1
    · conv_rhs => rw [← List.map_id t]
      apply List.map_congr_left
      intro r hr
      simp [hnone r hr]
    · simp [insertRow_key, mergeRow_insertRow]

/-- Concrete parameters: a plain text message. -/
def pHello : UpsertMessageParams where
  ChatJID := "123@g.us"
  ChatName := "Chat"
  MsgID := "m1"
  SenderJID := "alice@s.whatsapp.net"
  SenderName := "Alice"
  Timestamp := 100
  FromMe := false
  Text := "hello"
  DisplayText := "hello"
  MediaType := ""
  MediaCaption := ""
  Filename := ""
  MimeType := ""
  DirectPath := ""
  MediaKey := []
  FileSHA256 := []
  FileEncSHA256 := []
  FileLength := 0
  ReactionToID := ""
  ReactionEmoji := ""

/-- Concrete parameters: a later observation of the same message carrying
an empty text field. -/
def pEmptyText : UpsertMessageParams :=
  { pHello with Text := "", DisplayText := "", Timestamp := 101 }

/-- C1 counterexample: the claim says string fields keep the existing
stored value whenever the incoming value is empty, but `text` (like
`media_type`, `media_caption` and `sender_jid`) is overwritten
unconditionally: re-upserting the message with an empty text wipes the
stored non-empty text to NULL. -/
theorem upsertMessage_empty_text_regresses :
    (UpsertMessage pHello []).map (fun r => r.text) = [some "hello"]
    ∧ (UpsertMessage pEmptyText (UpsertMessage pHello [])).map (fun r => r.text) = [none] := by
  constructor <;> rfl

/-- C1 (amended): upserting an existing (chat id, message id) creates no
second row; the merge keeps the existing stored value on empty incoming
for chat name, sender name, display text, filename, MIME type, remote
locator, reaction fields and the bytes fields; timestamp and from-me are
always overwritten (and so are raw text, media type, media caption and
sender id); re-upserting an identical payload is a no-op. -/
theorem upsertMessage_merge_spec (p : UpsertMessageParams) (t : MsgTable)
    (hk : t.any (msgKeyMatches p.ChatJID p.MsgID) = true) :
    (UpsertMessage p t).length = t.length
    ∧ (UpsertMessage p t).countP (msgKeyMatches p.ChatJID p.MsgID)
        = t.countP (msgKeyMatches p.ChatJID p.MsgID)
    ∧ UpsertMessage p t
        = (t.map fun r => if msgKeyMatches p.ChatJID p.MsgID r then mergeRow r p else r)
    ∧ (∀ old : MsgRow,
        (mergeRow old p).ts = p.Timestamp
        ∧ (mergeRow old p).from_me = p.FromMe
        ∧ (trimSpace p.ChatName = "" → (mergeRow old p).chat_name = old.chat_name)
        ∧ (trimSpace p.SenderName = "" → (mergeRow old p).sender_name = old.sender_name)
        ∧ (trimSpace p.DisplayText = "" → (mergeRow old p).display_text = old.display_text)
        ∧ (trimSpace p.Filename = "" → (mergeRow old p).filename = old.filename)
        ∧ (trimSpace p.MimeType = "" → (mergeRow old p).mime_type = old.mime_type)
        ∧ (trimSpace p.DirectPath = "" → (mergeRow old p).direct_path = old.direct_path)
        ∧ (trimSpace p.ReactionToID = "" → (mergeRow old p).reaction_to_id = old.reaction_to_id)
        ∧ (trimSpace p.ReactionEmoji = "" → (mergeRow old p).reaction_emoji = old.reaction_emoji)
        ∧ (p.MediaKey = [] → (mergeRow old p).media_key = old.media_key)
        ∧ (p.FileSHA256 = [] → (mergeRow old p).file_sha256 = old.file_sha256)
        ∧ (p.FileEncSHA256 = [] → (mergeRow old p).file_enc_sha256 = old.file_enc_sha256))
    ∧ UpsertMessage p (UpsertMessage p t) = UpsertMessage p t := by
  refine ⟨?_, ?_, ?_, ?_, upsertMessage_idem p t⟩
  · simp [UpsertMessage, hk]
  · simp only [UpsertMessage, hk, if_true]
    rw [List.countP_map]
    apply List.countP_congr
    intro r _
    by_cases hkey : msgKeyMatches p.ChatJID p.MsgID r = true <;>
      simp [Function.comp, hkey, mergeRow_key]
  · simp [UpsertMessage, hk]
  · intro old
    refine ⟨rfl, rfl, ?_, ?_, ?_, ?_, ?_, ?_, ?_, ?_, ?_, ?_, ?_⟩ <;>
      intro h <;>
      simp [mergeRow, preferIncoming, preferNonEmptyBytes, nullIfEmpty, h]

/-- A concrete stored row used to instantiate the hypotheses of the C1
and C10 theorems. -/
def rowHello : MsgRow := insertRowOfParams pHello

theorem upsertMessage_merge_spec_witness :
    ([rowHello] : MsgTable).any (msgKeyMatches pEmptyText.ChatJID pEmptyText.MsgID) = true
    ∧ (UpsertMessage pEmptyText [rowHello]).length = 1 := by
  refine ⟨by decide, ?_⟩
  exact (upsertMessage_merge_spec pEmptyText [rowHello] (by decide)).1

/-- C10: every nullIfEmpty-bound string parameter of UpsertMessage that
is empty or whitespace-only is normalized to NULL before storage, so a
whitespace-only value behaves exactly like an empty one and never
overwrites a stored non-empty value of the keep-non-empty fields. -/
theorem upsertMessage_blank_normalized :
    (∀ s : String, trimSpace s = "" → nullIfEmpty s = none)
    ∧ (∀ p t, UpsertMessage p t = UpsertMessage (normalizeBlankParams p) t)
    ∧ (∀ p, (insertRowOfParams p).text = nullIfEmpty p.Text
        ∧ (insertRowOfParams p).chat_name = nullIfEmpty p.ChatName
        ∧ (insertRowOfParams p).sender_jid = nullIfEmpty p.SenderJID)
    ∧ (∀ (p : UpsertMessageParams) (old : MsgRow),
        (trimSpace p.ChatName = "" → (mergeRow old p).chat_name = old.chat_name)
        ∧ (trimSpace p.SenderName = "" → (mergeRow old p).sender_name = old.sender_name)
        ∧ (trimSpace p.DisplayText = "" → (mergeRow old p).display_text = old.display_text)
        ∧ (trimSpace p.Filename = "" → (mergeRow old p).filename = old.filename)
        ∧ (trimSpace p.MimeType = "" → (mergeRow old p).mime_type = old.mime_type)
        ∧ (trimSpace p.DirectPath = "" → (mergeRow old p).direct_path = old.direct_path)
        ∧ (trimSpace p.ReactionToID = "" → (mergeRow old p).reaction_to_id = old.reaction_to_id)
        ∧ (trimSpace p.ReactionEmoji = "" → (mergeRow old p).reaction_emoji = old.reaction_emoji)) := by
  refine ⟨?_, ?_, ?_, ?_⟩
  · intro s h; simp [nullIfEmpty, h]
  · intro p t
    have hrow : insertRowOfParams (normalizeBlankParams p) = insertRowOfParams p := by
      simp [insertRowOfParams, normalizeBlankParams, nullIfEmpty_blankToEmpty]
    have hmerge : ∀ r, mergeRow r (normalizeBlankParams p) = mergeRow r p := by
      intro r
      simp [mergeRow, normalizeBlankParams, nullIfEmpty_blankToEmpty]
    have hkeyC : (normalizeBlankParams p).ChatJID = p.ChatJID := rfl
    have hkeyM : (normalizeBlankParams p).MsgID = p.MsgID := rfl
    unfold UpsertMessage
    rw [hkeyC, hkeyM, hrow]
    by_cases h : t.any (msgKeyMatches p.ChatJID p.MsgID) = true
    · simp only [h, if_true]
      apply List.map_congr_left
      intro r _
      rw [hmerge]
    · simp only [eq_false_of_ne_true h, Bool.false_eq_true, if_false]
  · intro p; exact ⟨rfl, rfl, rfl⟩
  · intro p old
    refine ⟨?_, ?_, ?_, ?_, ?_, ?_, ?_, ?_⟩ <;>
      intro h <;>
      simp [mergeRow, preferIncoming, nullIfEmpty, h]

/-- Concrete parameters whose keep-non-empty string fields are
whitespace-only. -/
def pBlank : UpsertMessageParams :=
  { pHello with
    ChatName := "  "
    SenderName := " "
    DisplayText := " "
    Filename := " "
    MimeType := " "
    DirectPath := " "
    ReactionToID := " "
    ReactionEmoji := " " }

theorem upsertMessage_blank_normalized_witness :
    nullIfEmpty "  " = none
    ∧ (mergeRow rowHello pBlank).chat_name = rowHello.chat_name := by
  refine ⟨upsertMessage_blank_normalized.1 "  " (by decide), ?_⟩
  exact (upsertMessage_blank_normalized.2.2.2 pBlank rowHello).1 (by decide)

/-- C2: UpsertChat rewrites an existing chat row through mergeChatRow;
an empty incoming name keeps the stored name, and the stored
last-activity timestamp never decreases (an upsert with an older
timestamp leaves it unchanged). -/
theorem upsertChat_monotone :
    (∀ t jid kind name ts, t.any (fun c => c.jid = jid) = true →
      UpsertChat jid kind name ts t
        = t.map fun c => if c.jid = jid
            then mergeChatRow c (if trimSpace kind = "" then "unknown" else kind) name ts else c)
    ∧ (∀ c kind name ts, name = "" → (mergeChatRow c kind name ts).name = c.name)
    ∧ (∀ c kind name ts s, c.last_message_ts = some s → ts ≤ s →
        (mergeChatRow c kind name ts).last_message_ts = some s)
    ∧ (∀ c kind name ts s s', c.last_message_ts = some s →
        (mergeChatRow c kind name ts).last_message_ts = some s' → s ≤ s') := by
  refine ⟨?_, ?_, ?_, ?_⟩
  · intro t jid kind name ts h
    simp [UpsertChat, h]
  · intro c kind name ts h
    simp [mergeChatRow, h]
  · intro c kind name ts s hs hle
    have hgt : ¬ ts > c.last_message_ts.getD 0 := by
      rw [hs]
      simp only [Option.getD_some]
      omega
    show (if ts > c.last_message_ts.getD 0 then some ts else c.last_message_ts) = some s
    rw [if_neg hgt, hs]
  · intro c kind name ts s s' hs hs'
    have hs2 : (if ts > c.last_message_ts.getD 0 then some ts else c.last_message_ts)
        = some s' := hs'
    by_cases h : ts > c.last_message_ts.getD 0
    · rw [if_pos h] at hs2
      rw [hs] at h
      simp only [Option.getD_some] at h
      have := Option.some.inj hs2
      omega
    · rw [if_neg h, hs] at hs2
      have := Option.some.inj hs2
      omega

/-- A concrete stored chat row. -/
def chatAlice : ChatRow where
  jid := "123@s.whatsapp.net"
  kind := "dm"
  name := some "Alice"
  last_message_ts := some 200

theorem upsertChat_monotone_witness :
    (mergeChatRow chatAlice "dm" "" 150).name = some "Alice"
    ∧ (mergeChatRow chatAlice "dm" "" 150).last_message_ts = some 200 := by
  constructor
  · exact upsertChat_monotone.2.1 chatAlice "dm" "" 150 rfl
  · exact upsertChat_monotone.2.2.1 chatAlice "dm" "" 150 200 rfl (by omega)

/-- store.fromUnix maps non-positive seconds to the zero time and
store.unix maps the zero time back to 0: the round trip applied to a
stored timestamp by GetMessage before MessageContext re-anchors. -/
def normTs (x : Int) : Int := if x ≤ 0 then 0 else x

/-- store.GetMessage: the unique row for (chat_jid, msg_id). -/
def GetMessage (t : MsgTable) (chat id : String) : Option MsgRow :=
  t.find? (msgKeyMatches chat id)

/-- ORDER BY ts ASC as a relation. -/
def tsLE (a b : MsgRow) : Prop := a.ts ≤ b.ts

/-- ORDER BY ts DESC as a relation. -/
def tsGE (a b : MsgRow) : Prop := b.ts ≤ a.ts

instance : DecidableRel tsLE := fun a b => inferInstanceAs (Decidable (a.ts ≤ b.ts))

instance : DecidableRel tsGE := fun a b => inferInstanceAs (Decidable (b.ts ≤ a.ts))

instance : IsTotal MsgRow tsLE := ⟨fun a b => le_total a.ts b.ts⟩

instance : IsTrans MsgRow tsLE := ⟨fun _ _ _ h1 h2 => le_trans h1 h2⟩

instance : IsTotal MsgRow tsGE := ⟨fun a b => le_total b.ts a.ts⟩

instance : IsTrans MsgRow tsGE := ⟨fun _ _ _ h1 h2 => le_trans h2 h1⟩

/-- store.MessageContext (internal/store/messages.go lines 151-197):
clamp negative bounds to zero, look up the target, select up to `before`
strictly older rows of the chat in descending ts order and up to `after`
strictly newer rows in ascending order, reverse the older block, and
concatenate around the target. -/
def MessageContext (t : MsgTable) (chat id : String) (before after : Int) :
    Option (List MsgRow) :=
  match GetMessage t chat id with
  | none => none
  | some target =>
    let anchor := normTs target.ts
    let prev := (List.insertionSort tsGE
        (t.filter fun r => decide (r.chat_jid = chat ∧ r.ts < anchor))).take (max before 0).toNat
    let next := (List.insertionSort tsLE
        (t.filter fun r => decide (r.chat_jid = chat ∧ anchor < r.ts))).take (max after 0).toNat
    some (prev.reverse ++ [target] ++ next)

theorem normTs_of_nonneg {x : Int} (h : 0 ≤ x) : normTs x = x := by
  unfold normTs
  split <;> omega

theorem mem_of_mem_sort_take (rel : MsgRow → MsgRow → Prop) [DecidableRel rel]
    {r : MsgRow} {l : List MsgRow} {n : Nat}
    (h : r ∈ (List.insertionSort rel l).take n) : r ∈ l := by
  have h1 : r ∈ List.insertionSort rel l := (List.take_sublist n _).subset h
  exact (List.perm_insertionSort rel l).mem_iff.mp h1

theorem sorted_sort_take (rel : MsgRow → MsgRow → Prop) [DecidableRel rel]
    [IsTotal MsgRow rel] [IsTrans MsgRow rel] (l : List MsgRow) (n : Nat) :
    List.Pairwise rel ((List.insertionSort rel l).take n) :=
  (List.sorted_insertionSort rel l).sublist (List.take_sublist n _)

/-- A minimal concrete message row of chat "c". -/
def mkDemoRow (id : String) (ts : Int) : MsgRow where
  chat_jid := "c"
  chat_name := none
  msg_id := id
  sender_jid := none
  sender_name := none
  ts := ts
  from_me := false
  text := some id
  display_text := none
  media_type := none
  media_caption := none
  filename := none
  mime_type := none
  direct_path := none
  media_key := []
  file_sha256 := []
  file_enc_sha256 := []
  file_length := 0
  local_path := none
  downloaded_at := none
  reaction_to_id := none
  reaction_emoji := none

/-- Three sequential demo messages m1 < m2 < m3 by timestamp. -/
def demoM1 : MsgRow := mkDemoRow "m1" 1

def demoM2 : MsgRow := mkDemoRow "m2" 2

def demoM3 : MsgRow := mkDemoRow "m3" 3

def ctxDemoTable : MsgTable := [demoM1, demoM2, demoM3]

/-- Rows with negative stored timestamps: the GetMessage round trip
collapses the anchor to 0. -/
def negRowA : MsgRow := mkDemoRow "a" (-5)

def negRowB : MsgRow := mkDemoRow "b" (-3)

/-- C3 counterexample: on a target with negative stored timestamp the
context window is anchored at 0 instead of the target's timestamp, so
the "before" block contains a strictly newer message and the result is
not ordered oldest to newest. -/
theorem messageContext_negative_ts_breaks :
    MessageContext [negRowA, negRowB] "c" "a" 1 1 = some [negRowB, negRowA]
    ∧ negRowA.ts < negRowB.ts := by
  constructor
  · rfl
  · decide

/-- C3 (amended): for a stored target message with non-negative stored
timestamp, MessageContext returns up to `before` messages of the chat
strictly older than the target, then the target, then up to `after`
strictly newer ones, the whole result ordered oldest to newest; and on
three sequential messages m1 < m2 < m3, MessageContext on m2 with
bounds (1,1) returns exactly [m1, m2, m3]. -/
theorem messageContext_window_spec (t : MsgTable) (chat id : String) (before after : Int)
    (target : MsgRow) (res : List MsgRow)
    (hget : GetMessage t chat id = some target)
    (hts : 0 ≤ target.ts)
    (hres : MessageContext t chat id before after = some res) :
    (∃ pre post,
      res = pre ++ target :: post
      ∧ pre.length ≤ (max before 0).toNat
      ∧ post.length ≤ (max after 0).toNat
      ∧ (∀ r ∈ pre, r ∈ t ∧ r.chat_jid = chat ∧ r.ts < target.ts)
      ∧ (∀ r ∈ post, r ∈ t ∧ r.chat_jid = chat ∧ target.ts < r.ts)
      ∧ List.Pairwise tsLE res)
    ∧ MessageContext ctxDemoTable "c" "m2" 1 1 = some [demoM1, demoM2, demoM3] := by
  refine ⟨?_, by rfl⟩
  unfold MessageContext at hres
  rw [hget] at hres
  simp only [normTs_of_nonneg hts] at hres
  set prevAll := List.insertionSort tsGE
      (t.filter fun r => decide (r.chat_jid = chat ∧ r.ts < target.ts)) with hprevAll
  set nextAll := List.insertionSort tsLE
      (t.filter fun r => decide (r.chat_jid = chat ∧ target.ts < r.ts)) with hnextAll
  set pre := (prevAll.take (max before 0).toNat).reverse with hpre
  set post := nextAll.take (max after 0).toNat with hpost
  have hreseq : res = pre ++ target :: post := by
    have := Option.some.inj hres
    rw [← this]
    simp
  have hpremem : ∀ r ∈ pre, r ∈ t ∧ r.chat_jid = chat ∧ r.ts < target.ts := by
    intro r hr
    rw [hpre, List.mem_reverse] at hr
    have hrf := mem_of_mem_sort_take tsGE (by rw [← hprevAll]; exact hr)
    have := List.mem_filter.mp hrf
    refine ⟨this.1, ?_⟩
    have hp := of_decide_eq_true this.2
    exact hp
  have hpostmem : ∀ r ∈ post, r ∈ t ∧ r.chat_jid = chat ∧ target.ts < r.ts := by
    intro r hr
    rw [hpost] at hr
    have hrf := mem_of_mem_sort_take tsLE (by rw [← hnextAll]; exact hr)
    have := List.mem_filter.mp hrf
    refine ⟨this.1, ?_⟩
    have hp := of_decide_eq_true this.2
    exact hp
  have hpresorted : List.Pairwise tsLE pre := by
    rw [hpre, List.pairwise_reverse]
    have := sorted_sort_take tsGE
      (t.filter fun r => decide (r.chat_jid = chat ∧ r.ts < target.ts)) (max before 0).toNat
    rw [← hprevAll] at this
    exact this.imp fun h => h
  have hpostsorted : List.Pairwise tsLE post := by
    rw [hpost]
    have := sorted_sort_take tsLE
      (t.filter fun r => decide (r.chat_jid = chat ∧ target.ts < r.ts)) (max after 0).toNat
    rw [← hnextAll] at this
    exact this
  refine ⟨pre, post, hreseq, ?_, ?_, hpremem, hpostmem, ?_⟩
  · rw [hpre, List.length_reverse, List.length_take]
    exact min_le_left _ _
  · rw [hpost, List.length_take]
    exact min_le_left _ _
  · rw [hreseq]
    rw [List.pairwise_append]
    refine ⟨hpresorted, ?_, ?_⟩
    · rw [List.pairwise_cons]
      refine ⟨fun b hb => ?_, hpostsorted⟩
      have := (hpostmem b hb).2.2
      exact le_of_lt this
    · intro a ha b hb
      have hlt := (hpremem a ha).2.2
      rcases List.mem_cons.mp hb with h | h
      · rw [h]; exact le_of_lt hlt
      · have := (hpostmem b h).2.2
        exact le_of_lt (lt_trans hlt this)

theorem messageContext_window_spec_witness :
    MessageContext ctxDemoTable "c" "m2" 1 1 = some [demoM1, demoM2, demoM3]
    ∧ List.Pairwise tsLE [demoM1, demoM2, demoM3] := by
  have h := messageContext_window_spec ctxDemoTable "c" "m2" 1 1 demoM2
      [demoM1, demoM2, demoM3] (by rfl) (by decide) (by rfl)
  obtain ⟨⟨pre, post, heq, -, -, -, -, hsorted⟩, hdemo⟩ := h
  exact ⟨hdemo, hsorted⟩

/-- SQLite LOWER: ASCII-only case folding, character by character. -/
def sqlLower (s : String) : String := String.mk (s.data.map Char.toLower)

/-- Helper for the `%` wildcard: whether the continuation matches some
suffix of the string. -/
def likeMatchAux (f : List Char → Bool) : List Char → Bool
  | [] => f []
  | c :: s2 => f (c :: s2) || likeMatchAux f s2

/-- SQLite LIKE pattern matching (pattern first), with the wildcards
`%` (any sequence) and `_` (any single character) and no ESCAPE clause.
The source compares LOWER(field) LIKE LOWER(pattern), so both operands
arrive already lowercased. -/
def likeMatch : List Char → List Char → Bool
  | [], s => s.isEmpty
  | p :: ps, s =>
    if p = '%' then likeMatchAux (likeMatch ps) s
    else
      match s with
      | [] => false
      | c :: s2 => (p = '_' || p = c) && likeMatch ps s2

/-- The bound needle of searchLIKE: "%" + query + "%". -/
def likeNeedle (q : String) : String := "%" ++ q ++ "%"

/-- LOWER(x) LIKE LOWER(pat). -/
def sqlLikeCI (x pat : String) : Bool :=
  likeMatch (sqlLower pat).data (sqlLower x).data

/-- COALESCE(c.name,'') for the LEFT JOIN of messages with chats. -/
def joinedChatName (chats : ChatTable) (jid : String) : String :=
  match chats.find? (fun c => c.jid = jid) with
  | some c => c.name.getD ""
  | none => ""

/-- The WHERE disjunction of searchLIKE (part_000 lines 427-439): SQL
NULL operands of LIKE never match; chat_name, sender_name and the
joined chats.name are coalesced to ''. -/
def likeRowMatches (chats : ChatTable) (q : String) (m : MsgRow) : Bool :=
  let needle := likeNeedle q
  (m.text.map fun s => sqlLikeCI s needle).getD false
  || (m.media_caption.map fun s => sqlLikeCI s needle).getD false
  || (m.filename.map fun s => sqlLikeCI s needle).getD false
  || sqlLikeCI (m.chat_name.getD "") needle
  || sqlLikeCI (m.sender_name.getD "") needle
  || sqlLikeCI (joinedChatName chats m.chat_jid) needle

/-- store.SearchMessagesParams. `Before`/`After` carry the `unix` values
of the Go times. -/
structure SearchMessagesParams where
  Query : String
  ChatJID : String
  From : String
  Limit : Int
  Before : Option Int
  After : Option Int
  TypeFilter : String
  deriving Repr, DecidableEq

/-- store.applyMessageFilters (part_000 lines 456-478), shared by the
indexed and the fallback search path. A NULL sender_jid never equals
the From filter (SQL NULL comparison). -/
def passesFilters (p : SearchMessagesParams) (m : MsgRow) : Bool :=
  (if trimSpace p.ChatJID = "" then true else decide (m.chat_jid = p.ChatJID))
  && (if trimSpace p.From = "" then true
      else (m.sender_jid.map fun s => decide (s = p.From)).getD false)
  && (match p.After with
      | none => true
      | some a => decide (a < m.ts))
  && (match p.Before with
      | none => true
      | some b => decide (m.ts < b))
  && (if trimSpace p.TypeFilter = "" then true else decide (m.media_type.getD "" = p.TypeFilter))

/-- The ranking relation of the indexed path: ORDER BY bm25(messages_fts)
ascending (SQLite bm25 is lower-is-better). -/
def bm25LE (score : MsgRow → Int) (a b : MsgRow) : Prop := score a ≤ score b

instance (score : MsgRow → Int) : DecidableRel (bm25LE score) :=
  fun a b => inferInstanceAs (Decidable (score a ≤ score b))

instance (score : MsgRow → Int) : IsTotal MsgRow (bm25LE score) :=
  ⟨fun a b => le_total (score a) (score b)⟩

instance (score : MsgRow → Int) : IsTrans MsgRow (bm25LE score) :=
  ⟨fun _ _ _ h1 h2 => le_trans h1 h2⟩

/-- The store handle: the tables, the FTS availability flag, and the
external FTS5 engine (MATCH semantics and bm25 score), which is an
opaque collaborator of the store. -/
structure DBState where
  messages : MsgTable
  chats : ChatTable
  ftsEnabled : Bool
  ftsMatch : String → MsgRow → Bool
  bm25 : String → MsgRow → Int

/-- store.HasFTS (part_000 line 940). -/
def HasFTS (db : DBState) : Bool := db.ftsEnabled

/-- The effective LIMIT: a non-positive requested limit defaults to 50. -/
def searchLimit (p : SearchMessagesParams) : Nat :=
  (if p.Limit ≤ 0 then 50 else p.Limit).toNat

/-- store.searchLIKE: substring scan ordered by ts descending. -/
def searchLIKE (db : DBState) (p : SearchMessagesParams) : List MsgRow :=
  (List.insertionSort tsGE
    (db.messages.filter fun m =>
      likeRowMatches db.chats p.Query m && passesFilters p m)).take (searchLimit p)

/-- store.searchFTS: rows matched by the engine, ordered by bm25
ascending (best match first). -/
def searchFTS (db : DBState) (p : SearchMessagesParams) : List MsgRow :=
  (List.insertionSort (bm25LE (db.bm25 p.Query))
    (db.messages.filter fun m =>
      db.ftsMatch p.Query m && passesFilters p m)).take (searchLimit p)

/-- store.SearchMessages (part_000 lines 413-425). -/
def SearchMessages (db : DBState) (p : SearchMessagesParams) : Except String (List MsgRow) :=
  if trimSpace p.Query = "" then .error "query is required"
  else if db.ftsEnabled then .ok (searchFTS db p)
  else .ok (searchLIKE db p)

/-- Case-insensitive substring containment of the query in a field. -/
def containsCI (q field : String) : Prop :=
  ∃ a b, (sqlLower field).data = a ++ (sqlLower q).data ++ b

theorem likeMatchAux_of_here {f : List Char → Bool} {s : List Char}
    (h : f s = true) : likeMatchAux f s = true := by
  cases s with
  | nil => simpa [likeMatchAux] using h
  | cons c s2 => simp [likeMatchAux, h]

theorem likeMatchAux_drop (pre : List Char) {f : List Char → Bool} {s : List Char}
    (h : likeMatchAux f s = true) : likeMatchAux f (pre ++ s) = true := by
  induction pre with
  | nil => simpa using h
  | cons c pre2 ih => simp [likeMatchAux, ih]

theorem likeMatch_percent_nil (s : List Char) : likeMatch ['%'] s = true := by
  show likeMatchAux (likeMatch []) s = true
  induction s with
  | nil => rfl
  | cons c s2 ih => simp [likeMatchAux, ih]

theorem likeMatch_percent_cons {ps s : List Char} (h : likeMatch ps s = true) :
    likeMatch ('%' :: ps) s = true := by
  show likeMatchAux (likeMatch ps) s = true
  exact likeMatchAux_of_here h

theorem likeMatch_append_left (q : List Char) {ps s : List Char}
    (h : likeMatch ps s = true) : likeMatch (q ++ ps) (q ++ s) = true := by
  induction q with
  | nil => simpa using h
  | cons c q2 ih =>
    show likeMatch (c :: (q2 ++ ps)) (c :: (q2 ++ s)) = true
    by_cases hc : c = '%'
    · subst hc
      show likeMatchAux (likeMatch (q2 ++ ps)) ('%' :: (q2 ++ s)) = true
      simp only [likeMatchAux]
      rw [likeMatchAux_of_here ih]
      simp
    · rw [likeMatch]
      simp only [if_neg hc]
      simp [ih]

theorem likeMatch_percent_drop (pre : List Char) {ps s : List Char}
    (h : likeMatch ('%' :: ps) s = true) :
    likeMatch ('%' :: ps) (pre ++ s) = true := by
  show likeMatchAux (likeMatch ps) (pre ++ s) = true
  exact likeMatchAux_drop pre h

theorem likeMatch_contains (q a b : List Char) :
    likeMatch ('%' :: (q ++ ['%'])) (a ++ (q ++ b)) = true := by
  apply likeMatch_percent_drop
  apply likeMatch_percent_cons
  exact likeMatch_append_left q (likeMatch_percent_nil b)

theorem sqlLikeCI_of_containsCI {q f : String} (h : containsCI q f) :
    sqlLikeCI f (likeNeedle q) = true := by
  obtain ⟨a, b, hab⟩ := h
  unfold sqlLikeCI likeNeedle
  have hpat : (sqlLower ("%" ++ q ++ "%")).data
      = '%' :: ((sqlLower q).data ++ ['%']) := by
    simp [sqlLower, String.data_append]
  rw [hpat, hab]
  have := likeMatch_contains (sqlLower q).data a b
  simpa using this

/-- Containment of the query in one of the canonical fields scanned by
the fallback search. -/
def rowContainsCI (chats : ChatTable) (q : String) (m : MsgRow) : Prop :=
  (∃ s, m.text = some s ∧ containsCI q s)
  ∨ (∃ s, m.media_caption = some s ∧ containsCI q s)
  ∨ (∃ s, m.filename = some s ∧ containsCI q s)
  ∨ containsCI q (m.chat_name.getD "")
  ∨ containsCI q (m.sender_name.getD "")
  ∨ containsCI q (joinedChatName chats m.chat_jid)

theorem likeRowMatches_of_contains {chats : ChatTable} {q : String} {m : MsgRow}
    (h : rowContainsCI chats q m) : likeRowMatches chats q m = true := by
  unfold likeRowMatches
  rcases h with ⟨s, hs, hc⟩ | ⟨s, hs, hc⟩ | ⟨s, hs, hc⟩ | hc | hc | hc
  · simp [hs, sqlLikeCI_of_containsCI hc]
  · simp [hs, sqlLikeCI_of_containsCI hc]
  · simp [hs, sqlLikeCI_of_containsCI hc]
  · simp [sqlLikeCI_of_containsCI hc]
  · simp [sqlLikeCI_of_containsCI hc]
  · simp [sqlLikeCI_of_containsCI hc]

/-- A degraded-mode store (no FTS) holding the two demo messages, whose
texts "m1" and "m2" both contain the query "m". -/
def dbC4 : DBState where
  messages := [demoM1, demoM2]
  chats := []
  ftsEnabled := false
  ftsMatch := fun _ _ => false
  bm25 := fun _ _ => 0

/-- A search for "m" with an explicit result limit of 1 and no filters. -/
def pLimitOne : SearchMessagesParams where
  Query := "m"
  ChatJID := ""
  From := ""
  Limit := 1
  Before := none
  After := none
  TypeFilter := ""

/-- C4 counterexample: in degraded mode SearchMessages does not return
every stored message whose canonical fields contain the query — results
are truncated to the requested limit (default 50): with limit 1 and two
matching, filter-passing messages, the older match is dropped. -/
theorem searchMessages_limit_truncates :
    SearchMessages dbC4 pLimitOne = .ok [demoM2]
    ∧ rowContainsCI dbC4.chats "m" demoM1
    ∧ passesFilters pLimitOne demoM1 = true
    ∧ demoM1 ∉ [demoM2] := by
  refine ⟨rfl, ?_, rfl, by decide⟩
  left
  exact ⟨"m1", rfl, [], ['1'], rfl⟩

/-- C4 (amended): when the full-text engine is unavailable,
SearchMessages scans with case-insensitive LIKE containment over the
canonical fields, applies the same filter set as the indexed path,
orders by recency descending and truncates to the result limit
(default 50); every message whose canonical fields contain the query
and which passes the filters is returned whenever the match count fits
the limit; HasFTS reports false. When the engine is available the
result is ordered by the engine's bm25 relevance score ascending (best
match first). -/
theorem searchMessages_fallback_spec (db : DBState) (p : SearchMessagesParams)
    (hq : trimSpace p.Query ≠ "") :
    (db.ftsEnabled = false →
      SearchMessages db p = .ok (searchLIKE db p)
      ∧ (∀ r ∈ searchLIKE db p, r ∈ db.messages
          ∧ likeRowMatches db.chats p.Query r = true
          ∧ passesFilters p r = true)
      ∧ List.Pairwise tsGE (searchLIKE db p)
      ∧ (searchLIKE db p).length ≤ searchLimit p
      ∧ ((db.messages.filter fun m =>
            likeRowMatches db.chats p.Query m && passesFilters p m).length ≤ searchLimit p →
          ∀ r ∈ db.messages, rowContainsCI db.chats p.Query r →
            passesFilters p r = true → r ∈ searchLIKE db p)
      ∧ HasFTS db = false)
    ∧ (db.ftsEnabled = true →
      SearchMessages db p = .ok (searchFTS db p)
      ∧ List.Pairwise (bm25LE (db.bm25 p.Query)) (searchFTS db p)
      ∧ (∀ r ∈ searchFTS db p, r ∈ db.messages
          ∧ db.ftsMatch p.Query r = true ∧ passesFilters p r = true)) := by
  constructor
  · intro hfts
    refine ⟨by simp [SearchMessages, hq, hfts], ?_, ?_, ?_, ?_, hfts⟩
    · intro r hr
      have hsort : r ∈ List.insertionSort tsGE
          (db.messages.filter fun m =>
            likeRowMatches db.chats p.Query m && passesFilters p m) :=
        (List.take_sublist _ _).subset hr
      have hfil := (List.perm_insertionSort tsGE _).mem_iff.mp hsort
      have := List.mem_filter.mp hfil
      have hb := this.2
      rw [Bool.and_eq_true] at hb
      exact ⟨this.1, hb.1, hb.2⟩
    · exact sorted_sort_take tsGE _ _
    · rw [searchLIKE, List.length_take]
      exact min_le_left _ _
    · intro hlen r hmem hcont hpass
      have hmatch := likeRowMatches_of_contains hcont
      have hfil : r ∈ db.messages.filter fun m =>
          likeRowMatches db.chats p.Query m && passesFilters p m :=
        List.mem_filter.mpr ⟨hmem, by rw [Bool.and_eq_true]; exact ⟨hmatch, hpass⟩⟩
      have hsortlen : (List.insertionSort tsGE
          (db.messages.filter fun m =>
            likeRowMatches db.chats p.Query m && passesFilters p m)).length ≤ searchLimit p := by
        rw [(List.perm_insertionSort tsGE _).length_eq]
        exact hlen
      rw [searchLIKE, List.take_of_length_le hsortlen]
      exact (List.perm_insertionSort tsGE _).mem_iff.mpr hfil
  · intro hfts
    refine ⟨by simp [SearchMessages, hq, hfts], sorted_sort_take _ _ _, ?_⟩
    intro r hr
    have hsort : r ∈ List.insertionSort (bm25LE (db.bm25 p.Query))
        (db.messages.filter fun m => db.ftsMatch p.Query m && passesFilters p m) :=
      (List.take_sublist _ _).subset hr
    have hfil := (List.perm_insertionSort _ _).mem_iff.mp hsort
    have := List.mem_filter.mp hfil
    have hb := this.2
    rw [Bool.and_eq_true] at hb
    exact ⟨this.1, hb.1, hb.2⟩

theorem searchMessages_fallback_spec_witness :
    SearchMessages dbC4 pLimitOne = .ok (searchLIKE dbC4 pLimitOne)
    ∧ HasFTS dbC4 = false := by
  have h := (searchMessages_fallback_spec dbC4 pLimitOne (by decide)).1 rfl
  exact ⟨h.1, h.2.2.2.2.2⟩

/-- wa.Media (internal/wa/messages.go). The Go field `Type` is spelled
`MType` because `Type` is reserved in Lean. -/
structure Media where
  MType : String
  Caption : String
  Filename : String
  MimeType : String
  DirectPath : String
  MediaKey : Bytes
  FileSHA256 : Bytes
  FileEncSHA256 : Bytes
  FileLength : Nat
  deriving Repr, DecidableEq

/-- wa.ParsedMessage; the chat JID appears as its String() rendering and
the timestamp as its unix seconds. -/
structure ParsedMessage where
  Chat : String
  ID : String
  SenderJID : String
  Timestamp : Int
  FromMe : Bool
  Text : String
  Media : Option Media
  PushName : String
  ReplyToID : String
  ReplyToDisplay : String
  ReactionToID : String
  ReactionEmoji : String
  deriving Repr, DecidableEq

/-- app.mediaLabel (unnamed/part_001 lines 401-427). Go's
strings.ToLower appears as the ASCII fold sqlLower, which agrees on the
media-type strings in play. -/
def mediaLabel (mediaType : String) : String :=
  let mt := sqlLower (trimSpace mediaType)
  if mt = "gif" then "gif"
  else if mt = "image" then "image"
  else if mt = "video" then "video"
  else if mt = "audio" then "audio"
  else if mt = "sticker" then "sticker"
  else if mt = "document" then "document"
  else if mt = "location" then "location"
  else if mt = "contact" then "contact"
  else if mt = "contacts" then "contacts"
  else if mt = "" then "message"
  else mt

/-- app.lookupMessageDisplayText (unnamed/part_001 lines 381-399): the
stored row's display text, else its raw text, else a media label, else
empty; blank arguments short-circuit to empty. GetMessage coalesces the
scanned columns to "". -/
def lookupMessageDisplayText (t : MsgTable) (chatJID msgID : String) : String :=
  if trimSpace chatJID = "" ∨ trimSpace msgID = "" then ""
  else
    match GetMessage t chatJID msgID with
    | none => ""
    | some m =>
      if trimSpace (m.display_text.getD "") ≠ "" then trimSpace (m.display_text.getD "")
      else if trimSpace (m.text.getD "") ≠ "" then trimSpace (m.text.getD "")
      else if trimSpace (m.media_type.getD "") ≠ "" then
        "Sent " ++ mediaLabel (m.media_type.getD "")
      else ""

/-- app.baseDisplayText (unnamed/part_001 lines 371-379). -/
def baseDisplayText (pm : ParsedMessage) : String :=
  match pm.Media with
  | some media => "Sent " ++ mediaLabel media.MType
  | none => if trimSpace pm.Text ≠ "" then trimSpace pm.Text else ""

/-- app.buildDisplayText (unnamed/part_001 lines 332-369), with the
store lookup running against the messages table. -/
def buildDisplayText (t : MsgTable) (pm : ParsedMessage) : String :=
  let base := baseDisplayText pm
  if pm.ReactionToID ≠ "" ∨ trimSpace pm.ReactionEmoji ≠ "" then
    let target := trimSpace pm.ReactionToID
    let display0 := if target ≠ "" then lookupMessageDisplayText t pm.Chat target else ""
    let display := if display0 = "" then "message" else display0
    let emoji := trimSpace pm.ReactionEmoji
    if emoji ≠ "" then "Reacted " ++ emoji ++ " to " ++ display
    else "Reacted to " ++ display
  else if pm.ReplyToID ≠ "" then
    let quoted0 := trimSpace pm.ReplyToDisplay
    let quoted1 := if quoted0 = "" then lookupMessageDisplayText t pm.Chat pm.ReplyToID
      else quoted0
    let quoted := if quoted1 = "" then "message" else quoted1
    let base2 := if base = "" then "(message)" else base
    "> " ++ quoted ++ "\n" ++ base2
  else if base = "" then "(message)"
  else base

/-- Target-text resolution transcribed from the specification: the
previously stored target message's display text, else its raw text,
else a media label, else the literal "message" when nothing is
resolvable (including blank identifiers). -/
def specResolveTarget (t : MsgTable) (chat id : String) : String :=
  if trimSpace chat = "" ∨ trimSpace id = "" then "message"
  else
    match GetMessage t chat id with
    | none => "message"
    | some m =>
      if trimSpace (m.display_text.getD "") ≠ "" then trimSpace (m.display_text.getD "")
      else if trimSpace (m.text.getD "") ≠ "" then trimSpace (m.text.getD "")
      else if trimSpace (m.media_type.getD "") ≠ "" then
        "Sent " ++ mediaLabel (m.media_type.getD "")
      else "message"

/-- The reply display format transcribed from the specification:
"> " + (inline quoted text, else resolved target text) + newline +
(base text, or "(message)" when empty). -/
def specReplyDisplay (t : MsgTable) (pm : ParsedMessage) : String :=
  let quoted :=
    if trimSpace pm.ReplyToDisplay ≠ "" then trimSpace pm.ReplyToDisplay
    else specResolveTarget t pm.Chat pm.ReplyToID
  let base := if baseDisplayText pm = "" then "(message)" else baseDisplayText pm
  "> " ++ quoted ++ "\n" ++ base

/-- The reaction display format transcribed from the specification:
"Reacted " + emoji + " to " + resolved target text. -/
def specReactionDisplay (t : MsgTable) (pm : ParsedMessage) : String :=
  "Reacted " ++ trimSpace pm.ReactionEmoji ++ " to "
    ++ (if trimSpace pm.ReactionToID = "" then "message"
        else specResolveTarget t pm.Chat (trimSpace pm.ReactionToID))

theorem sent_ne_empty (s : String) : ("Sent " ++ s) ≠ "" := by
  intro h
  have hd : ("Sent " ++ s).data = ("" : String).data := by rw [h]
  rw [String.data_append] at hd
  simp at hd

/-- Substituting "message" for an empty lookup result agrees with the
specification-side resolution chain. -/
theorem lookup_fallback_eq_specResolve (t : MsgTable) (chat id : String) :
    (if lookupMessageDisplayText t chat id = "" then "message"
     else lookupMessageDisplayText t chat id) = specResolveTarget t chat id := by
  unfold lookupMessageDisplayText specResolveTarget
  by_cases hg : trimSpace chat = "" ∨ trimSpace id = ""
  · simp [hg]
  · simp only [hg, if_false]
    cases hgm : GetMessage t chat id with
    | none => simp
    | some m =>
      by_cases h1 : trimSpace (m.display_text.getD "") ≠ ""
      · simp [h1]
      · by_cases h2 : trimSpace (m.text.getD "") ≠ ""
        · simp [h1, h2]
        · by_cases h3 : trimSpace (m.media_type.getD "") ≠ ""
          · simp [h1, h2, h3, sent_ne_empty]
          · simp [h1, h2, h3]

/-- A concrete reply event: quoted text "quoted text", own text
"reply text". -/
def pmReplyDemo : ParsedMessage where
  Chat := "c"
  ID := "r1"
  SenderJID := "alice@s.whatsapp.net"
  Timestamp := 5
  FromMe := false
  Text := "reply text"
  Media := none
  PushName := "Alice"
  ReplyToID := "orig"
  ReplyToDisplay := "quoted text"
  ReactionToID := ""
  ReactionEmoji := ""

/-- C5: for a reply event (no reaction fields set), the display text is
"> " + resolved quoted text + newline + base text, with "(message)"
substituted for an empty base, resolution going inline quoted text,
else stored display text, else raw text, else media label, else the
literal "message"; the concrete reply yields
"> quoted text\nreply text". -/
theorem buildDisplayText_reply_spec (t : MsgTable) (pm : ParsedMessage)
    (hr1 : pm.ReactionToID = "") (hr2 : trimSpace pm.ReactionEmoji = "")
    (hrep : pm.ReplyToID ≠ "") :
    buildDisplayText t pm = specReplyDisplay t pm
    ∧ buildDisplayText [] pmReplyDemo = "> quoted text\nreply text" := by
  refine ⟨?_, rfl⟩
  unfold buildDisplayText specReplyDisplay
  simp only [hr1, hr2, ne_eq, not_true_eq_false, false_or, if_false, or_self,
    not_false_eq_true, hrep, if_true]
  by_cases hq : trimSpace pm.ReplyToDisplay = ""
  · simp only [hq, if_pos rfl, ne_eq, not_true_eq_false, if_false]
    exact congrArg (fun q => "> " ++ q ++ "\n"
      ++ (if baseDisplayText pm = "" then "(message)" else baseDisplayText pm))
      (lookup_fallback_eq_specResolve t pm.Chat pm.ReplyToID)
  · simp [hq]

/-- The stored target of the demo reaction, with display text "hello". -/
def rowTargetHello : MsgRow :=
  { mkDemoRow "orig" 1 with display_text := some "hello", text := none }

def reactionDemoTable : MsgTable := [rowTargetHello]

/-- A concrete reaction event with emoji 👍 targeting "orig". -/
def pmReactionDemo : ParsedMessage where
  Chat := "c"
  ID := "r2"
  SenderJID := "bob@s.whatsapp.net"
  Timestamp := 6
  FromMe := false
  Text := ""
  Media := none
  PushName := "Bob"
  ReplyToID := ""
  ReplyToDisplay := ""
  ReactionToID := "orig"
  ReactionEmoji := "👍"

/-- C6: for a reaction event with non-empty emoji, the display text is
"Reacted " + emoji + " to " + resolved target text (stored display
text, else raw text, else media label, else the literal "message");
the concrete reaction yields "Reacted 👍 to hello". -/
theorem buildDisplayText_reaction_spec (t : MsgTable) (pm : ParsedMessage)
    (he : trimSpace pm.ReactionEmoji ≠ "") :
    buildDisplayText t pm = specReactionDisplay t pm
    ∧ buildDisplayText reactionDemoTable pmReactionDemo = "Reacted 👍 to hello" := by
  refine ⟨?_, rfl⟩
  unfold buildDisplayText specReactionDisplay
  simp only [he, ne_eq, not_false_eq_true, or_true, if_true]
  by_cases ht : trimSpace pm.ReactionToID = ""
  · simp [ht]
  · simp only [ht, ne_eq, not_false_eq_true, if_true, if_false]
    exact congrArg (fun d => "Reacted " ++ trimSpace pm.ReactionEmoji ++ " to " ++ d)
      (lookup_fallback_eq_specResolve t pm.Chat (trimSpace pm.ReactionToID))

theorem buildDisplayText_reply_spec_witness :
    buildDisplayText ([] : MsgTable) pmReplyDemo = specReplyDisplay [] pmReplyDemo :=
  (buildDisplayText_reply_spec [] pmReplyDemo rfl rfl (by decide)).1

theorem buildDisplayText_reaction_spec_witness :
    buildDisplayText reactionDemoTable pmReactionDemo
      = specReactionDisplay reactionDemoTable pmReactionDemo :=
  (buildDisplayText_reaction_spec reactionDemoTable pmReactionDemo (by decide)).1

/-- A single SQL statement executed by a migration step: individually
atomic (it either fails leaving the state alone, or mutates it). -/
abbrev MigStmt (σ ε : Type) := σ → Except ε σ

/-- store.migration (migrations.go lines 11-15): a version, a name, and
the statements its `up` function executes in order against the live
connection. The source wraps them in no transaction. -/
structure Migration (σ ε : Type) where
  version : Nat
  name : String
  up : List (MigStmt σ ε)

/-- Runs the statements of one migration in order; a failing statement
stops execution but the effects of the earlier statements persist. -/
def runStmts {σ ε : Type} : List (MigStmt σ ε) → σ → σ × Option ε
  | [], s => (s, none)
  | stmt :: rest, s =>
    match stmt s with
    | .error e => (s, some e)
    | .ok s2 => runStmts rest s2

/-- The store state seen by ensureSchema: the schema and the
schema_migrations ledger (recorded versions, in insertion order). -/
structure MigState (σ : Type) where
  schema : σ
  ledger : List Nat
  deriving Repr, DecidableEq

/-- The migration loop of ensureSchema (migrations.go lines 53-68):
skip versions of the pre-read applied set; otherwise run the up
statements and append the ledger entry only after full success; a
failure aborts with the error and records nothing. -/
def applyMigrations {σ ε : Type} (applied : List Nat) :
    List (Migration σ ε) → MigState σ → MigState σ × Option ε
  | [], st => (st, none)
  | m :: rest, st =>
    if applied.contains m.version then applyMigrations applied rest st
    else
      match runStmts m.up st.schema with
      | (s2, some e) => ({ schema := s2, ledger := st.ledger }, some e)
      | (s2, none) =>
        applyMigrations applied rest { schema := s2, ledger := st.ledger ++ [m.version] }

/-- store.ensureSchema (migrations.go lines 24-71): read the applied
set from the ledger, then walk the migration list. -/
def ensureSchema {σ ε : Type} (migs : List (Migration σ ε)) (st : MigState σ) :
    MigState σ × Option ε :=
  applyMigrations st.ledger migs st

/-- The version numbers of store.schemaMigrations (migrations.go lines
17-22), in list order. -/
def schemaMigrationVersions : List Nat := [1, 2, 3, 4]

/-- The versions a run of the loop may record: those of the migrations
not in the pre-read applied set, in list order. -/
def missingVersions {σ ε : Type} (applied : List Nat) (migs : List (Migration σ ε)) :
    List Nat :=
  (migs.filter fun m => !(applied.contains m.version)).map fun m => m.version

theorem applyMigrations_ledger {σ ε : Type} (applied : List Nat) :
    ∀ (migs : List (Migration σ ε)) (st : MigState σ),
      ∃ k ≤ (missingVersions applied migs).length,
        (applyMigrations applied migs st).1.ledger
            = st.ledger ++ (missingVersions applied migs).take k
        ∧ ((applyMigrations applied migs st).2 = none →
            k = (missingVersions applied migs).length)
        ∧ (∀ e, (applyMigrations applied migs st).2 = some e →
            k < (missingVersions applied migs).length) := by
  intro migs
  induction migs with
  | nil =>
    intro st
    exact ⟨0, Nat.le_refl _, by simp [applyMigrations, missingVersions], fun _ => rfl,
      fun e he => by simp [applyMigrations] at he⟩
  | cons m rest ih =>
    intro st
    by_cases hmem : m.version ∈ applied
    · have hap : applied.contains m.version = true := by simpa using hmem
      have hmv : missingVersions applied (m :: rest) = missingVersions applied rest := by
        simp [missingVersions, List.filter_cons, hmem]
      have happ : applyMigrations applied (m :: rest) st = applyMigrations applied rest st := by
        simp [applyMigrations, hmem]
      rw [hmv, happ]
      exact ih st
    · have hapf : applied.contains m.version = false := by simpa using hmem
      have hmv : missingVersions applied (m :: rest)
          = m.version :: missingVersions applied rest := by
        simp [missingVersions, List.filter_cons, hmem]
      rw [hmv]
      cases hrun : runStmts m.up st.schema with
      | mk s2 err =>
        cases err with
        | some e =>
          refine ⟨0, Nat.zero_le _, ?_, ?_, ?_⟩
          · simp [applyMigrations, hmem, hrun]
          · intro hnone
            simp [applyMigrations, hmem, hrun] at hnone
          · intro e2 he2
            simp
        | none =>
          obtain ⟨k, hk, hled, hnone, hsome⟩ :=
            ih { schema := s2, ledger := st.ledger ++ [m.version] }
          have happ : applyMigrations applied (m :: rest) st
              = applyMigrations applied rest { schema := s2, ledger := st.ledger ++ [m.version] } := by
            simp [applyMigrations, hmem, hrun]
          rw [happ]
          refine ⟨k + 1, by simpa using Nat.succ_le_succ hk, ?_, ?_, ?_⟩
          · rw [hled]
            simp
          · intro h
            rw [hnone h]
            simp
          · intro e he
            have := hsome e he
            simpa using Nat.succ_lt_succ this

theorem applyMigrations_all_applied {σ ε : Type} (applied : List Nat)
    (migs : List (Migration σ ε)) (st : MigState σ)
    (h : ∀ m ∈ migs, applied.contains m.version = true) :
    applyMigrations applied migs st = (st, none) := by
  induction migs with
  | nil => rfl
  | cons m rest ih =>
    have hm := h m (List.mem_cons_self m rest)
    simp only [applyMigrations, hm, if_true]
    exact ih fun m2 hm2 => h m2 (List.mem_cons_of_mem m hm2)

/-- A schema state for the concrete counterexample: the log of applied
statements. -/
def stmtLog (tag : String) : MigStmt (List String) String := fun s => .ok (s ++ [tag])

def stmtFail (msg : String) : MigStmt (List String) String := fun _ => .error msg

/-- A two-statement migration whose second statement fails. -/
def partialMig : Migration (List String) String where
  version := 1
  name := "m1"
  up := [stmtLog "stmt1", stmtFail "boom"]

/-- C7 counterexample: migrations do not run inside their own
transaction — when the second statement of a migration fails, the first
statement's effect persists in the schema state (a transaction would
have rolled it back), although the migration is not recorded and
initialization aborts with the error. -/
theorem ensureSchema_not_transactional :
    ensureSchema [partialMig] { schema := ([] : List String), ledger := [] }
      = ({ schema := ["stmt1"], ledger := [] }, some "boom")
    ∧ (["stmt1"] : List String) ≠ [] := by
  exact ⟨rfl, by decide⟩

/-- C7 (amended): store initialization applies exactly the migrations
whose version is missing from the pre-read ledger, in list order
(ascending, as the concrete schema migration list is strictly
ascending), records a ledger entry for a migration only after it fully
succeeds, aborts on the first failure with an error (the failing
migration and everything after it stay unrecorded), and is a no-op when
every version is already recorded; the steps are however not wrapped in
per-migration transactions, so a failing multi-statement migration can
leave earlier statements' effects behind (never recorded as applied). -/
theorem ensureSchema_ledger_spec {σ ε : Type} (migs : List (Migration σ ε))
    (st : MigState σ) :
    (∃ k ≤ (missingVersions st.ledger migs).length,
      (ensureSchema migs st).1.ledger
          = st.ledger ++ (missingVersions st.ledger migs).take k
      ∧ ((ensureSchema migs st).2 = none →
          k = (missingVersions st.ledger migs).length)
      ∧ (∀ e, (ensureSchema migs st).2 = some e →
          k < (missingVersions st.ledger migs).length))
    ∧ ((∀ m ∈ migs, st.ledger.contains m.version = true) →
        ensureSchema migs st = (st, none))
    ∧ (List.Pairwise (· < ·) (migs.map fun m => m.version) →
        List.Pairwise (· < ·) (missingVersions st.ledger migs))
    ∧ List.Pairwise (· < ·) schemaMigrationVersions := by
  refine ⟨applyMigrations_ledger st.ledger migs st,
    applyMigrations_all_applied st.ledger migs st, ?_, by decide⟩
  intro hsorted
  have hsub : List.Sublist (missingVersions st.ledger migs) (migs.map fun m => m.version) :=
    List.Sublist.map _ (List.filter_sublist migs)
  exact hsorted.sublist hsub

theorem ensureSchema_ledger_spec_witness :
    ensureSchema [partialMig] { schema := (["x"] : List String), ledger := [1] }
      = ({ schema := ["x"], ledger := [1] }, none) :=
  (ensureSchema_ledger_spec [partialMig]
      { schema := (["x"] : List String), ledger := [1] }).2.1 (by decide)

/-- store.GroupParticipant (part_000 lines 203-208); `UpdatedAt` is the
`unix` value. -/
structure GroupParticipant where
  GroupJID : String
  UserJID : String
  Role : String
  UpdatedAt : Int
  deriving Repr, DecidableEq

/-- One row of the group_participants table. -/
structure GPRow where
  group_jid : String
  user_jid : String
  role : String
  updated_at : Int
  deriving Repr, DecidableEq

/-- The group-related store state: the jids present in the groups table
(the FOREIGN KEY target) and the participants table. -/
structure GroupsState where
  groups : List String
  participants : List GPRow
  deriving Repr, DecidableEq

/-- The constraint failures an INSERT into group_participants can hit:
the FOREIGN KEY to groups(jid) and the (group_jid, user_jid) PRIMARY
KEY. -/
inductive SqlErr
  | fkViolation
  | pkViolation
  deriving Repr, DecidableEq

/-- The row bound by the prepared INSERT (part_000 lines 858-866): the
groupJID argument (not the participant's own GroupJID field), a trimmed
role defaulting to "member", and the shared `now` timestamp. -/
def participantRow (groupJID : String) (p : GroupParticipant) (now : Int) : GPRow where
  group_jid := groupJID
  user_jid := p.UserJID
  role := if trimSpace p.Role = "" then "member" else trimSpace p.Role
  updated_at := now

/-- One INSERT inside the transaction, against the working table. -/
def insertParticipant (groups : List String) (w : List GPRow) (row : GPRow) :
    Except SqlErr (List GPRow) :=
  if !(groups.contains row.group_jid) then .error .fkViolation
  else if w.any fun r => r.group_jid = row.group_jid && r.user_jid = row.user_jid then
    .error .pkViolation
  else .ok (w ++ [row])

/-- The insert loop of the transaction body: first failure aborts. -/
def insertAllParticipants (groups : List String) (groupJID : String) (now : Int) :
    List GroupParticipant → List GPRow → Except SqlErr (List GPRow)
  | [], w => .ok w
  | p :: rest, w =>
    match insertParticipant groups w (participantRow groupJID p now) with
    | .error e => .error e
    | .ok w2 => insertAllParticipants groups groupJID now rest w2

/-- The uncommitted transaction view: DELETE all rows of the group,
then run the inserts. -/
def replaceTxRun (st : GroupsState) (groupJID : String)
    (ps : List GroupParticipant) (now : Int) : Except SqlErr (List GPRow) :=
  insertAllParticipants st.groups groupJID now ps
    (st.participants.filter fun r => !(decide (r.group_jid = groupJID)))

/-- store.ReplaceGroupParticipants (part_000 lines 839-869): the whole
delete-then-insert runs in one transaction; any error rolls it back
(state unchanged), success commits the working table. -/
def ReplaceGroupParticipants (st : GroupsState) (groupJID : String)
    (ps : List GroupParticipant) (now : Int) : GroupsState × Option SqlErr :=
  match replaceTxRun st groupJID ps now with
  | .error e => (st, some e)
  | .ok w => ({ st with participants := w }, none)

theorem insertAllParticipants_ok {groups : List String} {groupJID : String} {now : Int} :
    ∀ {ps : List GroupParticipant} {w w2 : List GPRow},
      insertAllParticipants groups groupJID now ps w = .ok w2 →
      w2 = w ++ ps.map fun p => participantRow groupJID p now := by
  intro ps
  induction ps with
  | nil =>
    intro w w2 h
    simp [insertAllParticipants] at h
    simp [h.symm]
  | cons p rest ih =>
    intro w w2 h
    rw [insertAllParticipants] at h
    cases hins : insertParticipant groups w (participantRow groupJID p now) with
    | error e => rw [hins] at h; exact absurd h (by simp)
    | ok w1 =>
      rw [hins] at h
      have hstep : w1 = w ++ [participantRow groupJID p now] := by
        unfold insertParticipant at hins
        by_cases h1 : !(groups.contains (participantRow groupJID p now).group_jid)
        · rw [if_pos h1] at hins; exact absurd hins (by simp)
        · rw [if_neg h1] at hins
          by_cases h2 : w.any fun r =>
              r.group_jid = (participantRow groupJID p now).group_jid
                && r.user_jid = (participantRow groupJID p now).user_jid
          · rw [if_pos h2] at hins; exact absurd hins (by simp)
          · rw [if_neg h2] at hins
            exact (Except.ok.inj hins).symm
      have := ih h
      rw [this, hstep]
      simp

/-- The two old participant rows of the demo group "g". -/
def gpRowA : GPRow where
  group_jid := "g"
  user_jid := "a@s.whatsapp.net"
  role := "member"
  updated_at := 10

def gpRowB : GPRow where
  group_jid := "g"
  user_jid := "b@s.whatsapp.net"
  role := "admin"
  updated_at := 10

def gpStateOld : GroupsState where
  groups := ["g"]
  participants := [gpRowA, gpRowB]

/-- A refresh carrying the same user twice: the second INSERT hits the
(group_jid, user_jid) PRIMARY KEY inside the transaction. -/
def gpDupInput : List GroupParticipant :=
  [{ GroupJID := "g", UserJID := "u@s.whatsapp.net", Role := "member", UpdatedAt := 0 },
   { GroupJID := "g", UserJID := "u@s.whatsapp.net", Role := "admin", UpdatedAt := 0 }]

/-- C8: ReplaceGroupParticipants replaces a group's participant set
wholesale inside one transaction and is atomic: on success the group's
rows are exactly the new set (rows of other groups untouched); on any
error the previous state is returned unchanged; concretely, a
mid-replacement failure (duplicate user) leaves the old two-row set
intact even though the uncommitted transaction view had already deleted
it. -/
theorem replaceGroupParticipants_atomic :
    (∀ (st : GroupsState) (g : String) (ps : List GroupParticipant) (now : Int) st2,
      ReplaceGroupParticipants st g ps now = (st2, none) →
      st2.groups = st.groups
      ∧ st2.participants
          = (st.participants.filter fun r => !(decide (r.group_jid = g)))
            ++ ps.map fun p => participantRow g p now)
    ∧ (∀ (st : GroupsState) (g : String) (ps : List GroupParticipant) (now : Int) st2 e,
      ReplaceGroupParticipants st g ps now = (st2, some e) → st2 = st)
    ∧ ReplaceGroupParticipants gpStateOld "g" gpDupInput 0
        = (gpStateOld, some SqlErr.pkViolation)
    ∧ (gpStateOld.participants.filter fun r => !(decide (r.group_jid = "g"))) = [] := by
  refine ⟨?_, ?_, by rfl, by rfl⟩
  · intro st g ps now st2 h
    unfold ReplaceGroupParticipants at h
    cases hrun : replaceTxRun st g ps now with
    | error e => rw [hrun] at h; exact absurd h (by simp)
    | ok w =>
      rw [hrun] at h
      have hst : st2 = { st with participants := w } := by
        have := Prod.mk.injEq .. |>.mp h
        exact this.1.symm
      have hw := insertAllParticipants_ok hrun
      rw [hst, hw]
      exact ⟨rfl, rfl⟩
  · intro st g ps now st2 e h
    unfold ReplaceGroupParticipants at h
    cases hrun : replaceTxRun st g ps now with
    | error e2 =>
      rw [hrun] at h
      have := Prod.mk.injEq .. |>.mp h
      exact this.1.symm
    | ok w => rw [hrun] at h; exact absurd h (by simp)

theorem replaceGroupParticipants_atomic_witness :
    gpStateOld = gpStateOld ∧ ReplaceGroupParticipants gpStateOld "g" gpDupInput 0
      = (gpStateOld, some SqlErr.pkViolation) := by
  refine ⟨?_, replaceGroupParticipants_atomic.2.2.1⟩
  exact replaceGroupParticipants_atomic.2.1 gpStateOld "g" gpDupInput 0 gpStateOld
    SqlErr.pkViolation replaceGroupParticipants_atomic.2.2.1

/-- The ways one backfill round can end before or after the wait. -/
inductive BackfillErr
  | noMessages
  | requestFailed
  | timedOut
  | cancelled
  deriving Repr, DecidableEq

/-- The fields of the locally-known oldest message used by the loop. -/
structure OldestInfo where
  MsgID : String
  Timestamp : Int
  FromMe : Bool
  deriving Repr, DecidableEq

/-- A correlated on-demand history response. -/
structure RoundResp where
  conversations : Nat
  messages : Nat
  endComplete : Bool
  deriving Repr, DecidableEq

/-- What the select over the response channel, the context and the
per-request timer yields. -/
inductive WaitOutcome
  | resp (r : RoundResp)
  | timedOut
  | cancelled
  deriving Repr, DecidableEq

/-- The environment of one round: the oldest message before the request
(none models the GetOldestMessageInfo error, including sql.ErrNoRows),
whether issuing the request failed, the wait outcome, and the oldest
message re-read after the response (none models a lookup error, which
skips the no-progress check). -/
structure BackfillRound where
  oldest : Option OldestInfo
  requestErr : Bool
  wait : WaitOutcome
  newOldest : Option OldestInfo
  deriving Repr, DecidableEq

/-- The request loop of app.BackfillHistory (backfill.go lines
115-175), driven by a script of round environments: `requestsSent` is
incremented before the request is issued; `responsesSeen` only after a
correlated response arrives; the stopping checks run in source order
(no progress, zero messages, end-of-history); any error aborts. -/
def backfillRounds (script : Nat → BackfillRound) :
    Nat → Nat → Nat → Nat → Nat × Nat × Option BackfillErr
  | 0, _, reqs, resps => (reqs, resps, none)
  | fuel + 1, i, reqs, resps =>
    let r := script i
    match r.oldest with
    | none => (reqs, resps, some .noMessages)
    | some oldest =>
      let reqs2 := reqs + 1
      if r.requestErr then (reqs2, resps, some .requestFailed)
      else
        match r.wait with
        | .cancelled => (reqs2, resps, some .cancelled)
        | .timedOut => (reqs2, resps, some .timedOut)
        | .resp resp =>
          let resps2 := resps + 1
          let noProgress := (r.newOldest.map fun nw =>
            decide (nw.MsgID = oldest.MsgID)).getD false
          if noProgress then (reqs2, resps2, none)
          else if resp.messages = 0 then (reqs2, resps2, none)
          else if resp.endComplete then (reqs2, resps2, none)
          else backfillRounds script fuel (i + 1) reqs2 resps2

/-- The counters of app.BackfillResult tracked by the loop. -/
structure BackfillResult where
  RequestsSent : Nat
  ResponsesSeen : Nat
  deriving Repr, DecidableEq

/-- app.BackfillHistory (backfill.go lines 39-192), restricted to its
counter behaviour: a non-positive request budget defaults to 1; on an
error from the embedded sync the zero-value BackfillResult is returned
together with the error, discarding the counters. -/
def BackfillHistory (script : Nat → BackfillRound) (requests : Int) :
    BackfillResult × Option BackfillErr :=
  match backfillRounds script (if requests ≤ 0 then 1 else requests).toNat 0 0 0 with
  | (reqs, resps, none) => ({ RequestsSent := reqs, ResponsesSeen := resps }, none)
  | (_, _, some e) => ({ RequestsSent := 0, ResponsesSeen := 0 }, some e)

/-- Counter balance of the loop: a clean finish (or an abort before the
request is issued) leaves the two counters advanced equally; an abort
after the request was issued (request failure, timeout, cancellation)
leaves the request counter exactly one ahead. -/
theorem backfillRounds_balance (script : Nat → BackfillRound) :
    ∀ (fuel i reqs resps a b : Nat) (err : Option BackfillErr),
      backfillRounds script fuel i reqs resps = (a, b, err) →
      ((err = none ∨ err = some .noMessages → a + resps = b + reqs)
        ∧ (err = some .requestFailed ∨ err = some .timedOut ∨ err = some .cancelled →
            a + resps = b + reqs + 1)) := by
  intro fuel
  induction fuel with
  | zero =>
    intro i reqs resps a b err h
    rw [backfillRounds] at h
    obtain ⟨ha, hb, herr⟩ := Prod.mk.injEq .. |>.mp h |>.imp id (Prod.mk.injEq .. |>.mp ·)
    constructor
    · intro _; omega
    · intro hc
      rw [← herr] at hc
      rcases hc with hc | hc | hc <;> exact absurd hc (by simp)
  | succ fuel ih =>
    intro i reqs resps a b err h
    rw [backfillRounds] at h
    cases ho : (script i).oldest with
    | none =>
      rw [ho] at h
      obtain ⟨ha, hb, herr⟩ := Prod.mk.injEq .. |>.mp h |>.imp id (Prod.mk.injEq .. |>.mp ·)
      constructor
      · intro _; omega
      · intro hc
        rw [← herr] at hc
        rcases hc with hc | hc | hc <;> exact absurd hc (by simp)
    | some oldest =>
      rw [ho] at h
      simp only at h
      by_cases hre : (script i).requestErr
      · rw [if_pos hre] at h
        obtain ⟨ha, hb, herr⟩ := Prod.mk.injEq .. |>.mp h |>.imp id (Prod.mk.injEq .. |>.mp ·)
        constructor
        · intro hc
          rw [← herr] at hc
          rcases hc with hc | hc <;> exact absurd hc (by simp)
        · intro _; omega
      · rw [if_neg hre] at h
        cases hw : (script i).wait with
        | cancelled =>
          rw [hw] at h
          obtain ⟨ha, hb, herr⟩ := Prod.mk.injEq .. |>.mp h |>.imp id (Prod.mk.injEq .. |>.mp ·)
          constructor
          · intro hc
            rw [← herr] at hc
            rcases hc with hc | hc <;> exact absurd hc (by simp)
          · intro _; omega
        | timedOut =>
          rw [hw] at h
          obtain ⟨ha, hb, herr⟩ := Prod.mk.injEq .. |>.mp h |>.imp id (Prod.mk.injEq .. |>.mp ·)
          constructor
          · intro hc
            rw [← herr] at hc
            rcases hc with hc | hc <;> exact absurd hc (by simp)
          · intro _; omega
        | resp resp =>
          rw [hw] at h
          simp only at h
          by_cases h1 : ((script i).newOldest.map fun nw =>
              decide (nw.MsgID = oldest.MsgID)).getD false = true
          · rw [if_pos h1] at h
            obtain ⟨ha, hb, herr⟩ := Prod.mk.injEq .. |>.mp h |>.imp id (Prod.mk.injEq .. |>.mp ·)
            constructor
            · intro _; omega
            · intro hc
              rw [← herr] at hc
              rcases hc with hc | hc | hc <;> exact absurd hc (by simp)
          · rw [if_neg h1] at h
            by_cases h2 : resp.messages = 0
            · rw [if_pos h2] at h
              obtain ⟨ha, hb, herr⟩ := Prod.mk.injEq .. |>.mp h |>.imp id (Prod.mk.injEq .. |>.mp ·)
              constructor
              · intro _; omega
              · intro hc
                rw [← herr] at hc
                rcases hc with hc | hc | hc <;> exact absurd hc (by simp)
            · rw [if_neg h2] at h
              by_cases h3 : resp.endComplete
              · rw [if_pos h3] at h
                obtain ⟨ha, hb, herr⟩ :=
                  Prod.mk.injEq .. |>.mp h |>.imp id (Prod.mk.injEq .. |>.mp ·)
                constructor
                · intro _; omega
                · intro hc
                  rw [← herr] at hc
                  rcases hc with hc | hc | hc <;> exact absurd hc (by simp)
              · rw [if_neg h3] at h
                have := ih (i + 1) (reqs + 1) (resps + 1) a b err h
                constructor
                · intro hc
                  have := this.1 hc
                  omega
                · intro hc
                  have := this.2 hc
                  omega

/-- A script whose first round times out waiting for the response. -/
def timeoutScript : Nat → BackfillRound := fun _ =>
  { oldest := some { MsgID := "m", Timestamp := 1, FromMe := false }
    requestErr := false
    wait := .timedOut
    newOldest := none }

/-- C9 counterexample: a round that times out does not leave both
counters alone — the request counter was already incremented before the
wait, so the loop ends with requestsSent = 1, responsesSeen = 0; the
operation aborts with an error and BackfillHistory then discards the
counters entirely (zero-value result). -/
theorem backfill_timeout_increments_requests :
    backfillRounds timeoutScript 1 0 0 0 = (1, 0, some .timedOut)
    ∧ BackfillHistory timeoutScript 1
        = ({ RequestsSent := 0, ResponsesSeen := 0 }, some .timedOut) :=
  ⟨rfl, rfl⟩

/-- C9 (amended): each successful round increments the request counter
and the response counter by one each (a clean finish keeps them equal);
a round that times out has already incremented the request counter but
not the response counter (the loop aborts with requests = responses +
1) and the whole backfill operation aborts with an error, whose
returned result carries zeroed counters. -/
theorem backfillHistory_counter_spec (script : Nat → BackfillRound) :
    (∀ (fuel i reqs resps a b : Nat) (err : Option BackfillErr),
      backfillRounds script fuel i reqs resps = (a, b, err) →
      (err = none → a + resps = b + reqs)
      ∧ (err = some .timedOut → a + resps = b + reqs + 1))
    ∧ (∀ (fuel i reqs resps : Nat) (oldest : OldestInfo) (resp : RoundResp),
      (script i).oldest = some oldest → (script i).requestErr = false →
      (script i).wait = .resp resp →
      backfillRounds script (fuel + 1) i reqs resps
        = (if ((script i).newOldest.map fun nw =>
              decide (nw.MsgID = oldest.MsgID)).getD false then (reqs + 1, resps + 1, none)
          else if resp.messages = 0 then (reqs + 1, resps + 1, none)
          else if resp.endComplete then (reqs + 1, resps + 1, none)
          else backfillRounds script fuel (i + 1) (reqs + 1) (resps + 1)))
    ∧ (∀ (fuel i reqs resps : Nat) (oldest : OldestInfo),
      (script i).oldest = some oldest → (script i).requestErr = false →
      (script i).wait = .timedOut →
      backfillRounds script (fuel + 1) i reqs resps = (reqs + 1, resps, some .timedOut))
    ∧ (∀ (requests : Int) (e : BackfillErr),
      (BackfillHistory script requests).2 = some e →
      (BackfillHistory script requests).1
        = { RequestsSent := 0, ResponsesSeen := 0 }) := by
  refine ⟨?_, ?_, ?_, ?_⟩
  · intro fuel i reqs resps a b err h
    have := backfillRounds_balance script fuel i reqs resps a b err h
    exact ⟨fun he => this.1 (Or.inl he), fun he => this.2 (Or.inr (Or.inl he))⟩
  · intro fuel i reqs resps oldest resp ho hre hw
    rw [backfillRounds, ho]
    simp only [hre, if_false, hw, Bool.false_eq_true]
  · intro fuel i reqs resps oldest ho hre hw
    rw [backfillRounds, ho]
    simp only [hre, if_false, hw, Bool.false_eq_true]
  · intro requests e h
    unfold BackfillHistory at h ⊢
    cases hb : backfillRounds script (if requests ≤ 0 then 1 else requests).toNat 0 0 0 with
    | mk a rest =>
      cases rest with
      | mk b err =>
        cases err with
        | none => rw [hb] at h; exact absurd h (by simp)
        | some e2 => rfl

theorem backfillHistory_counter_spec_witness :
    backfillRounds timeoutScript 1 0 0 0 = (1, 0, some .timedOut)
    ∧ 1 + 0 = 0 + 0 + 1 := by
  refine ⟨rfl, ?_⟩
  exact ((backfillHistory_counter_spec timeoutScript).1 1 0 0 0 1 0
    (some .timedOut) rfl).2 rfl

end Wacli
